import Mathlib

/-!
# A verification of `polyfill-library/tasks/buildsources.js`

Shallow embedding of the polyfill build pipeline: feature discovery,
per-feature configuration loading and validation, license checking,
minification, dependency-graph validation, alias-index construction and
output writing, together with theorems about the behaviours the build
script guarantees.

JS strings are modelled as Lean `String`s except where UTF-16 length
semantics matter (`Polyfill.updateConfig`), where a string is a list of
Unicode code points.  JS objects used as string-keyed maps are modelled
as insertion-ordered association lists.  Asynchronous stages are
sequenced exactly as the promise chain sequences them, with filesystem
writes recorded as an explicit event trace.
-/

set_option autoImplicit false

instance {ε α : Type} [DecidableEq ε] [DecidableEq α] :
    DecidableEq (Except ε α) := fun a b =>
  match a, b with
  | .ok x, .ok y =>
      if h : x = y then .isTrue (by rw [h]) else .isFalse (by simp [h])
  | .ok _, .error _ => .isFalse (by simp)
  | .error _, .ok _ => .isFalse (by simp)
  | .error x, .error y =>
      if h : x = y then .isTrue (by rw [h]) else .isFalse (by simp [h])

namespace BuildSources

/-- `s.startsWith pre` / `s.indexOf(pre) !== 0`, on the character level
(so that it evaluates by `decide`). -/
def strStartsWith (s pre : String) : Bool :=
  pre.data.isPrefixOf s.data

/-! ## Data model

`TomlConfig` models the result of `TOML.parse` on a feature's
`config.toml`, restricted to the keys the build script reads.  An
`Option` field is `none` when the key is absent from the file; `licence`
records the misspelled key checked by `'licence' in this.config`. -/

structure BuildOptions where
  minify : Option Bool
  deriving Repr, DecidableEq

structure TestOptions where
  ci : Option Bool
  deriving Repr, DecidableEq

structure TomlConfig where
  aliases : Option (List String) := none
  dependencies : Option (List String) := none
  license : Option String := none
  licence : Option String := none
  browsers : Option (List (String × String)) := none
  build : Option BuildOptions := none
  test : Option TestOptions := none
  deriving Repr, DecidableEq

/-- `{raw, min}` pair produced by the minification methods. -/
structure Sources where
  raw : String
  min : String
  deriving Repr, DecidableEq

/-- `new Polyfill(absolute, relative)`: `this.name` is computed once in the
constructor from the relative path; see `jsReplaceSeparators` below for the
`relative.replace(/(\/|\\)/g, '.')` call. -/
structure Polyfill where
  absolutePath : String
  relativePath : String
  name : String
  config : TomlConfig
  deriving Repr, DecidableEq

/-- One step of `String.prototype.replace` with the global regex
`/(\/|\\)/g` and replacement `'.'`: every occurrence of a forward slash or
a backslash (each match is a single character) becomes a dot. -/
def jsReplaceSeparators (chars : List Char) : List Char :=
  match chars with
  | [] => []
  | c :: rest =>
      (if c = '/' ∨ c = '\\' then '.' else c) :: jsReplaceSeparators rest

/-- `this.name = relative.replace(/(\/|\\)/g, '.')` -/
def canonicalName (relative : String) : String :=
  ⟨jsReplaceSeparators relative.data⟩

/-- The `Polyfill` constructor (lines 93–98 of `buildsources.js`). -/
def Polyfill.mk' (absolute relative : String) : Polyfill :=
  { absolutePath := absolute
    relativePath := relative
    name := canonicalName relative
    config := {} }

/-- Modelled from the spec's wording of the naming rule: the directory's
relative path with every path separator (forward slash or backslash)
replaced by `.`, character by character. -/
def specCanonicalName (relative : String) : String :=
  ⟨relative.data.map (fun c => if c = '/' ∨ c = '\\' then '.' else c)⟩

/-- `get aliases()`: `['all', ...(this.config.aliases || [])]` -/
def Polyfill.aliases (p : Polyfill) : List String :=
  "all" :: (p.config.aliases.getD [])

/-- `get dependencies()`: `this.config.dependencies || []` -/
def Polyfill.dependencies (p : Polyfill) : List String :=
  p.config.dependencies.getD []

/-! ## Minification (`Polyfill.minifyPolyfill`)

`validateSource` and `uglify.minify` call out of the build script; they
are passed in as parameters: `parses code = true` iff `new vm.Script(code)`
does not throw, and `uglify` is the text transform of
`uglify.minify(..).code` under the polyfill output options. -/

/-- `validateSource(code, label)`: throws a parse error naming the label
when the code does not parse. -/
def validateSource (parses : String → Bool) (code label : String) :
    Except String Unit :=
  if parses code then .ok () else .error ("Error parsing source code for " ++ label)

/-- The header-annotated raw variant: `` `\n// ${this.name}\n${source}` ``. -/
def rawWithHeader (name source : String) : String :=
  "\n// " ++ name ++ "\n" ++ source

/-- `this.config.build && this.config.build.minify === false` -/
def minifyDisabled (config : TomlConfig) : Bool :=
  match config.build with
  | some b => b.minify = some false
  | none => false

/-- `Polyfill.minifyPolyfill(source)` (lines 207–228): when the build
config explicitly disables minification, return
`{ raw: raw + '\n', min: source + '\n' }` with no validation; otherwise
validate then uglify. -/
def minifyPolyfill (parses : String → Bool) (uglify : String → String)
    (name : String) (config : TomlConfig) (source : String) :
    Except String Sources :=
  let raw := rawWithHeader name source
  if minifyDisabled config then
    .ok { raw := raw ++ "\n", min := source ++ "\n" }
  else
    match validateSource parses source (name ++ " from polyfill.js") with
    | .error e => .error e
    | .ok _ => .ok { raw := raw, min := uglify source }

/-! ## UTF-16 vs byte length (`Polyfill.updateConfig`)

A JS string is a sequence of UTF-16 code units; `String.prototype.length`
counts code units, not bytes.  Here a string is a list of Unicode code
points (each `< 0x110000`). -/

/-- Number of UTF-16 code units of one code point. -/
def utf16Units (cp : Nat) : Nat :=
  if cp < 0x10000 then 1 else 2

/-- `s.length` for a JS string holding the given code points. -/
def jsStringLength (codepoints : List Nat) : Nat :=
  (codepoints.map utf16Units).sum

/-- Number of UTF-8 bytes of one code point. -/
def utf8Units (cp : Nat) : Nat :=
  if cp < 0x80 then 1
  else if cp < 0x800 then 2
  else if cp < 0x10000 then 3
  else 4

/-- The byte length (UTF-8) of a string holding the given code points. -/
def utf8ByteLength (codepoints : List Nat) : Nat :=
  (codepoints.map utf8Units).sum

/-- `updateConfig()` (lines 124–126): `this.config.size = this.sources.min.length`.
The derived size field is the JS string length of the minified source. -/
def updateConfigSize (minSource : List Nat) : Nat :=
  jsStringLength minSource

/-! ## Dependency existence (`checkDependenciesExist`) -/

/-- The fixed tail of the `checkDependenciesExist` rejection message. -/
def depErrorSuffix : String :=
  ", which does not exist within the polyfill-service. Recommended to either add the missing polyfill or remove the dependency."

/-- The rejection message of `checkDependenciesExist` (line 69). -/
def depErrorMessage (dependent missing : String) : String :=
  "Polyfill " ++ dependent ++ " depends on " ++ missing ++ depErrorSuffix

/-- The first `(feature, dependency)` pair, in the nested-loop iteration
order, whose dependency name matches no polyfill's name. -/
def firstMissingDep (polyfills : List Polyfill) : Option (Polyfill × String) :=
  polyfills.findSome? (fun p =>
    (p.dependencies.find? (fun d => !polyfills.any (fun q => d = q.name))).map
      (fun d => (p, d)))

/-- `checkDependenciesExist(polyfills)` (lines 62–74): reject at the first
dependency that names no discovered polyfill, resolve otherwise. -/
def checkDependenciesExist (polyfills : List Polyfill) : Except String Unit :=
  match firstMissingDep polyfills with
  | some (p, d) => .error (depErrorMessage p.name d)
  | none => .ok ()

/-! ## Circular dependencies (`checkForCircularDependencies`)

`toposort` (the npm package) throws exactly when the edge list has a
directed cycle.  Cycle detection is embedded as Kahn's algorithm:
repeatedly remove a node with no incoming edge; a cycle exists iff some
nodes can never be removed. -/

/-- The edge list built at lines 46–50: one `dependency → dependent` edge
per declared dependency, in iteration order. -/
def dependencyEdges (polyfills : List Polyfill) : List (String × String) :=
  polyfills.flatMap (fun p => p.dependencies.map (fun d => (d, p.name)))

/-- The nodes of an edge list. -/
def edgeNodes (edges : List (String × String)) : List String :=
  (edges.flatMap (fun e => [e.1, e.2])).dedup

/-- Kahn elimination: with fuel, repeatedly drop a node with no incoming
edge, discarding its outgoing edges; return `true` (cycle) if a nonempty
node set has no such node (or fuel runs out with nodes left). -/
def kahnStuck : Nat → List String → List (String × String) → Bool
  | 0, ns, _ => !ns.isEmpty
  | fuel + 1, ns, es =>
      if ns.isEmpty then false
      else
        match ns.find? (fun n => !es.any (fun e => e.2 = n)) with
        | none => true
        | some n => kahnStuck fuel (ns.erase n) (es.filter (fun e => e.1 ≠ n))

/-- The edge list has a directed cycle. -/
def hasCycle (edges : List (String × String)) : Bool :=
  kahnStuck (edgeNodes edges).length (edgeNodes edges) edges

/-- The rejection message of `checkForCircularDependencies` (line 58),
up to the appended `toposort` error text. -/
def cycleErrorMessage : String :=
  "\nThere is a circle in the dependency graph.\nCheck the `dependencies` property of polyfill config files that have recently changed, and ensure that they do not form a circle of references."

/-- `checkForCircularDependencies(polyfills)` (lines 43–60). -/
def checkForCircularDependencies (polyfills : List Polyfill) :
    Except String Unit :=
  if hasCycle (dependencyEdges polyfills) then .error cycleErrorMessage
  else .ok ()

/-! ## Alias index (`writeAliasFile`) -/

/-- One step of the loop body at lines 81–85: JS object update
`aliases[alias] = aliases[alias] ? [...aliases[alias], name] : [name]`,
on an insertion-ordered string-keyed map. -/
def insertAlias (m : List (String × List String)) (alias_ name : String) :
    List (String × List String) :=
  match m with
  | [] => [(alias_, [name])]
  | (k, v) :: rest =>
      if k = alias_ then (k, v ++ [name]) :: rest
      else (k, v) :: insertAlias rest alias_ name

/-- The `aliases` object built by `writeAliasFile` (lines 76–90): for each
polyfill in order, for each alias in `polyfill.aliases` in order, append
the polyfill's name under that alias. -/
def buildAliases (polyfills : List Polyfill) : List (String × List String) :=
  polyfills.foldl
    (fun m p => p.aliases.foldl (fun m' al => insertAlias m' al p.name) m)
    []

/-- Modelled from the spec's wording of the alias rule: the list obtained
by, for every feature in order, for every occurrence of the alias in
`["all"] ++ declared aliases` in order, appending the feature's name. -/
def specAliasList (polyfills : List Polyfill) (alias_ : String) : List String :=
  polyfills.flatMap (fun p => (p.aliases.filter (fun a => a = alias_)).map (fun _ => p.name))

/-! ## Config loading (`Polyfill.loadConfig`, lines 128–167)

The post-`TOML.parse` validation sequence: internal-browser coverage
check, misspelled-licence check, derived flags, detect-snippet
processing — in that order. -/

structure LoadedFlags where
  detectSource : String
  baseDir : String
  hasTests : Bool
  isTestable : Bool
  isPublic : Bool
  deriving Repr, DecidableEq

/-- The `TOML.stringify(browserSupport)` fragment of the error at line 146:
one `browser = "*"` line per supported browser. -/
def browserSupportToml (supportedBrowsers : List String) : String :=
  String.join (supportedBrowsers.map (fun b => b ++ " = \"*\"\n"))

/-- The error thrown at line 146. -/
def internalBrowserError (name : String) (supportedBrowsers : List String) : String :=
  "Internal polyfill called " ++ name ++
    " is not targeting all supported browsers correctly. It should be: \n" ++
    browserSupportToml supportedBrowsers

/-- The JS `TypeError` raised by `this.config.browsers[browser]` when the
config has no `browsers` table: the property access on `undefined` inside
the `every` callback throws before line 146 can build its `Error`. -/
def browsersUndefinedError (browser : String) : String :=
  "TypeError: Cannot read properties of undefined (reading " ++ browser ++ ")"

/-- Lines 142–147: for an internal polyfill,
`supportedBrowsers.every(browser => this.config.browsers[browser] === "*")`;
the callback is never invoked when the supported-browser list is empty, and
its first invocation throws a `TypeError` when `browsers` is absent. -/
def internalBrowserCheck (name : String) (supportedBrowsers : List String)
    (browsers : Option (List (String × String))) : Except String Unit :=
  match supportedBrowsers with
  | [] => .ok ()
  | b :: _ =>
      match browsers with
      | none => .error (browsersUndefinedError b)
      | some table =>
          if supportedBrowsers.all (fun br => List.lookup br table = some "*") then .ok ()
          else .error (internalBrowserError name supportedBrowsers)

/-- The error thrown at line 154. -/
def licenceSpellingError (name : String) : String :=
  "Incorrect spelling of license property in " ++ name

/-- The characters matched by the JS regex class `\s` (ASCII part). -/
def jsIsWhitespace (c : Char) : Bool :=
  c = ' ' ∨ c = '\t' ∨ c = '\n' ∨ c = '\r' ∨ c = '\x0b' ∨ c = '\x0c'

/-- `.replace(/\s*$/, '')` at line 162: strip trailing whitespace (the
subsequent `|| ''` is the identity, since a falsy result here is already
the empty string). -/
def stripTrailingWhitespace (s : String) : String :=
  ⟨(s.data.reverse.dropWhile jsIsWhitespace).reverse⟩

/-- `Polyfill.minifyDetect(source)` (lines 230–251): same branch structure
as `minifyPolyfill`, with the detect uglify options (its validation label
also uses `sourcePath`, as in the source). -/
def minifyDetect (parses : String → Bool) (uglifyDetect : String → String)
    (name : String) (config : TomlConfig) (source : String) :
    Except String Sources :=
  let raw := rawWithHeader name source
  if minifyDisabled config then
    .ok { raw := raw ++ "\n", min := source ++ "\n" }
  else
    match validateSource parses source (name ++ " from polyfill.js") with
    | .error e => .error e
    | .ok _ => .ok { raw := raw, min := uglifyDetect source }

/-- The validation steps of `loadConfig` after `TOML.parse` succeeds
(lines 140–165).  `detectFile` is the content of `detect.js` when that
file exists; `hasTestsFile` is `fs.existsSync(tests.js)`. -/
def loadConfigChecks (relative : String) (cfg : TomlConfig)
    (supportedBrowsers : List String) (hasTestsFile : Bool)
    (detectFile : Option String) (parses : String → Bool)
    (uglifyDetect : String → String) : Except String LoadedFlags :=
  let name := canonicalName relative
  ((if strStartsWith relative "_" then
      internalBrowserCheck name supportedBrowsers cfg.browsers
    else .ok ()).bind fun _ =>
  if cfg.licence.isSome then .error (licenceSpellingError name)
  else
    let flags : LoadedFlags :=
      { detectSource := ""
        baseDir := relative
        hasTests := hasTestsFile
        isTestable := !(match cfg.test with
                        | some t => t.ci = some false
                        | none => false)
        isPublic := !(strStartsWith name "_") }
    match detectFile with
    | none => .ok flags
    | some content =>
        (minifyDetect parses uglifyDetect name cfg
            (stripTrailingWhitespace content)).bind fun srcs =>
        (validateSource parses ("if (" ++ srcs.min ++ ") true;")
            (name ++ " feature detect from detect.js")).map fun _ =>
        { flags with detectSource := srcs.min })

/-! ## License check (`Polyfill.checkLicense`, lines 169–183)

The SPDX registry is the external collaborator `spdx-licenses`; it is
passed in as a lookup function. -/

structure SpdxLicense where
  name : String
  osiApproved : Bool
  deriving Repr, DecidableEq

/-- The error thrown at line 177. -/
def notOsiApprovedError (license licenseName : String) : String :=
  "The license " ++ license ++ " (" ++ licenseName ++ ") is not OSI approved."

/-- The error thrown at line 180. -/
def notOnSpdxListError (license : String) : String :=
  "The license " ++ license ++
    " is not on the SPDX list of licenses ( https://spdx.org/licenses/ )."

/-- `Polyfill.checkLicense()` (lines 169–183). -/
def checkLicense (spdx : String → Option SpdxLicense) (cfg : TomlConfig) :
    Except String Unit :=
  match cfg.license with
  | none => .ok ()
  | some lic =>
      match spdx lic with
      | some info =>
          if lic ≠ "CC0-1.0" ∧ lic ≠ "WTFPL" ∧ info.osiApproved = false then
            .error (notOsiApprovedError lic info.name)
          else .ok ()
      | none => .error (notOnSpdxListError lic)

/-! ## Feature discovery (`flattenPolyfillDirectories`, lines 30–41)

The filesystem is a rooted tree of directories; a discovered path is the
list of directory names from the root down (the model of `path.join`).
`item.indexOf('__') !== 0` is exactly `¬ item.startsWith "__"`. -/

inductive DirTree where
  | node (dirName : String) (children : List DirTree)

def DirTree.dirName : DirTree → String
  | .node n _ => n

def DirTree.children : DirTree → List DirTree
  | .node _ cs => cs

mutual

/-- `flattenPolyfillDirectories(directory)`: recursively discover all
subdirectories, skipping any whose base name starts with `__` (and hence
its whole subtree); for each kept child, recursive results come first,
then the child itself. -/
def flattenPolyfillDirectories : DirTree → List (List String)
  | .node _ cs => flattenForest cs

def flattenForest : List DirTree → List (List String)
  | [] => []
  | c :: cs =>
      (if strStartsWith c.dirName "__" then []
       else (flattenPolyfillDirectories c).map (fun p => c.dirName :: p) ++
            [[c.dirName]]) ++ flattenForest cs

end

/-- `p` is a chain of nested child directories starting under `t`. -/
def IsDirChain : DirTree → List String → Prop
  | _, [] => True
  | t, n :: rest => ∃ c ∈ t.children, c.dirName = n ∧ IsDirChain c rest

/-- `this.name.indexOf('_') !== 0`, the `isPublic` derivation (line 159). -/
def isPublicName (name : String) : Bool :=
  !(strStartsWith name "_")

/-! ## Pipeline (lines 279–306)

`runBuildStage` models the promise chain from line 290 on, after all
descriptors settled successfully: the write events actually performed and
the rejection (if any) that halted the run, in order. -/

inductive WriteEvent where
  | mkdirDestination
  | writeAliases
  | mkdirFeature (name : String)
  | writeFeatureFile (feature file : String)
  deriving Repr, DecidableEq

/-- `Polyfill.writeOutput` (lines 259–271): create the feature directory,
then write `meta.json`, `raw.js`, `min.js`. -/
def writeOutputEvents (p : Polyfill) : List WriteEvent :=
  [.mkdirFeature p.name,
   .writeFeatureFile p.name "meta.json",
   .writeFeatureFile p.name "raw.js",
   .writeFeatureFile p.name "min.js"]

/-- The tail of the pipeline (lines 290–298): circular-dependency check,
then existence check, then `makeDirectory(destination)`, then the alias
file, then every feature's output.  Returns the performed write events
and the error that rejected the chain, if any. -/
def runBuildStage (polyfills : List Polyfill) :
    List WriteEvent × Option String :=
  match checkForCircularDependencies polyfills with
  | .error e => ([], some e)
  | .ok _ =>
      match checkDependenciesExist polyfills with
      | .error e => ([], some e)
      | .ok _ =>
          (WriteEvent.mkdirDestination :: WriteEvent.writeAliases ::
            polyfills.flatMap writeOutputEvents, none)

/-! ## Descriptor-construction stage (lines 280–288)

Candidate filtering happens before any per-feature loading: directories
without a `config.toml` are dropped by the `filter` before `loadConfig`
is ever called on them. -/

structure FeatureDir where
  absolute : String
  relative : String
  hasConfigFile : Bool
  deriving Repr, DecidableEq

/-- `.filter(polyfill => polyfill.hasConfigFile)` (line 282). -/
def candidateFeatures (dirs : List FeatureDir) : List FeatureDir :=
  dirs.filter (fun d => d.hasConfigFile)

inductive LoadStage where
  | loadConfig
  | checkLicense
  | loadSources
  | updateConfig
  deriving Repr, DecidableEq

/-- The per-feature loading stages attempted by the orchestrator
(lines 283–287), in order, for each candidate. -/
def constructionTrace (dirs : List FeatureDir) :
    List (FeatureDir × LoadStage) :=
  (candidateFeatures dirs).flatMap (fun d =>
    [(d, .loadConfig), (d, .checkLicense), (d, .loadSources), (d, .updateConfig)])

/-! ## Helper lemmas -/

/-- A string spliced between two others occurs in the result. -/
theorem data_infix_append (a n b : String) : n.data <:+: (a ++ n ++ b).data :=
  ⟨a.data, b.data, by simp⟩

theorem jsReplaceSeparators_eq_map (l : List Char) :
    jsReplaceSeparators l =
      l.map (fun c => if c = '/' ∨ c = '\\' then '.' else c) := by
  induction l with
  | nil => rfl
  | cons c rest ih => simp [jsReplaceSeparators, ih]

theorem utf16Units_le_utf8Units (cp : Nat) : utf16Units cp ≤ utf8Units cp := by
  unfold utf16Units utf8Units
  split_ifs <;> omega

theorem utf16Units_eq_utf8Units_iff (cp : Nat) :
    utf16Units cp = utf8Units cp ↔ cp < 0x80 := by
  unfold utf16Units utf8Units
  split_ifs <;> omega

theorem jsStringLength_le_utf8ByteLength (l : List Nat) :
    jsStringLength l ≤ utf8ByteLength l := by
  induction l with
  | nil => simp [jsStringLength, utf8ByteLength]
  | cons c rest ih =>
      simp only [jsStringLength, utf8ByteLength, List.map_cons, List.sum_cons] at *
      exact Nat.add_le_add (utf16Units_le_utf8Units c) ih

/-- A string spliced before the end of a concatenation occurs in it. -/
theorem data_infix_append_right (a n : String) : n.data <:+: (a ++ n).data :=
  ⟨a.data, [], by simp⟩

theorem depErrorMessage_names_dependent (n d : String) :
    n.data <:+: (depErrorMessage n d).data := by
  have h : depErrorMessage n d =
      "Polyfill " ++ n ++ (" depends on " ++ d ++ depErrorSuffix) := by
    simp [depErrorMessage, String.append_assoc]
  rw [h]
  exact data_infix_append _ _ _

theorem depErrorMessage_names_missing (n d : String) :
    d.data <:+: (depErrorMessage n d).data := by
  have h : depErrorMessage n d =
      ("Polyfill " ++ n ++ " depends on ") ++ d ++ depErrorSuffix := by
    simp [depErrorMessage, String.append_assoc]
  rw [h]
  exact data_infix_append _ _ _

end BuildSources

namespace BuildSources

/-! ## Claims -/

/-- C8: a feature's canonical name equals the directory's relative path
with every path separator (forward slash or backslash) replaced by `.`,
computed at construction from the relative path alone, so two
constructions over an identical layout yield identical names. -/
theorem canonicalName_spec (absolute absolute₂ relative : String) :
    (Polyfill.mk' absolute relative).name = specCanonicalName relative ∧
    (Polyfill.mk' absolute relative).name = (Polyfill.mk' absolute₂ relative).name := by
  refine ⟨?_, rfl⟩
  show canonicalName relative = specCanonicalName relative
  unfold canonicalName specCanonicalName
  rw [jsReplaceSeparators_eq_map]

/-- C1 counterexample: with minification explicitly disabled, the minified
variant is the bare source plus a newline, while the raw variant carries
the `// <name>` header — they differ, and the minified variant does not
contain the header comment at all. -/
theorem minifyPolyfill_disabled_min_ne_raw :
    minifyPolyfill (fun _ => true) id "x"
        { build := some { minify := some false } } "s" =
      .ok { raw := "\n// x\ns\n", min := "s\n" } ∧
    ("s\n" : String) ≠ "\n// x\ns\n" ∧
    ¬ ("// x".data <:+: ("s\n" : String).data) := by
  refine ⟨rfl, by decide, by decide⟩

/-- C1 amended: with minification explicitly disabled, `minifyPolyfill`
returns the header-annotated, newline-terminated source as the raw
variant and the original source with only a trailing newline added as
the minified variant, independently of the parser and minifier (so no
syntax validation and no compression transform is applied). -/
theorem minifyPolyfill_disabled (parses : String → Bool)
    (uglify : String → String) (name source : String) (config : TomlConfig)
    (h : minifyDisabled config = true) :
    minifyPolyfill parses uglify name config source =
      .ok { raw := rawWithHeader name source ++ "\n", min := source ++ "\n" } := by
  simp [minifyPolyfill, h]

/-- Witness for `minifyPolyfill_disabled`, with a parser that rejects
everything (showing no validation runs in this branch). -/
theorem minifyPolyfill_disabled_witness :
    minifyDisabled { build := some { minify := some false } } = true ∧
    minifyPolyfill (fun _ => false) id "n"
        { build := some { minify := some false } } "src" =
      .ok { raw := rawWithHeader "n" "src" ++ "\n", min := "src" ++ "\n" } :=
  ⟨rfl, minifyPolyfill_disabled (fun _ => false) id "n" "src" _ rfl⟩

/-- C2 counterexample: for the one-character minified source `é`
(code point 233), the derived size is the JS string length 1, not the
byte length 2. -/
theorem updateConfigSize_not_byteLength :
    updateConfigSize [233] = 1 ∧ utf8ByteLength [233] = 2 ∧
    updateConfigSize [233] ≠ utf8ByteLength [233] := by
  decide

/-- C2 amended: the derived size field equals the number of UTF-16 code
units of the minified source (the JS string length); this coincides with
the byte length exactly when every code point is ASCII. -/
theorem updateConfigSize_spec (minSource : List Nat) :
    updateConfigSize minSource = jsStringLength minSource ∧
    (updateConfigSize minSource = utf8ByteLength minSource ↔
      ∀ cp ∈ minSource, cp < 0x80) := by
  refine ⟨rfl, ?_⟩
  show jsStringLength minSource = utf8ByteLength minSource ↔ _
  induction minSource with
  | nil => simp [jsStringLength, utf8ByteLength]
  | cons c rest ih =>
      simp only [jsStringLength, utf8ByteLength, List.map_cons, List.sum_cons,
        List.mem_cons, forall_eq_or_imp] at *
      have h1 := utf16Units_le_utf8Units c
      have h2 := jsStringLength_le_utf8ByteLength rest
      simp only [jsStringLength, utf8ByteLength] at h2
      constructor
      · intro h
        have hc : utf16Units c = utf8Units c := by omega
        have hr : (rest.map utf16Units).sum = (rest.map utf8Units).sum := by omega
        exact ⟨(utf16Units_eq_utf8Units_iff c).mp hc, ih.mp hr⟩
      · rintro ⟨hc, hrest⟩
        have := (utf16Units_eq_utf8Units_iff c).mpr hc
        have := ih.mpr hrest
        omega

/-- C3: when some feature declares a dependency that matches no
discovered feature's name, `checkDependenciesExist` rejects, and its
error is the message for the first violating (feature, dependency) pair
in iteration order, naming both the dependent feature and the missing
dependency. -/
theorem checkDependenciesExist_missing (polyfills : List Polyfill)
    (h : ∃ p ∈ polyfills, ∃ d ∈ p.dependencies, ∀ q ∈ polyfills, d ≠ q.name) :
    ∃ p₀ d₀,
      firstMissingDep polyfills = some (p₀, d₀) ∧
      checkDependenciesExist polyfills = .error (depErrorMessage p₀.name d₀) ∧
      p₀ ∈ polyfills ∧ d₀ ∈ p₀.dependencies ∧
      (∀ q ∈ polyfills, d₀ ≠ q.name) ∧
      p₀.name.data <:+: (depErrorMessage p₀.name d₀).data ∧
      d₀.data <:+: (depErrorMessage p₀.name d₀).data := by
  rcases hfind : firstMissingDep polyfills with _ | ⟨p₀, d₀⟩
  · exfalso
    obtain ⟨p, hp, d, hd, hnone⟩ := h
    have hsome := List.findSome?_eq_none_iff.mp hfind p hp
    have hfindnone :
        p.dependencies.find? (fun d => !polyfills.any (fun q => d = q.name)) = none := by
      simpa using hsome
    have hpred := List.find?_eq_none.mp hfindnone d hd
    simp only [Bool.not_eq_true, Bool.not_eq_false] at hpred
    obtain ⟨q, hq, hdq⟩ := by simpa using hpred
    exact hnone q hq hdq
  · obtain ⟨p, hp, hmap⟩ := List.exists_of_findSome?_eq_some hfind
    rw [Option.map_eq_some'] at hmap
    obtain ⟨d, hfd, hpd⟩ := hmap
    injection hpd with h1 h2
    subst h1
    subst h2
    have hpredtrue := List.find?_some hfd
    have hdmem := List.mem_of_find?_eq_some hfd
    have hanyfalse : polyfills.any (fun q => d = q.name) = false := by
      simpa using hpredtrue
    have hmiss : ∀ q ∈ polyfills, d ≠ q.name := by
      intro q hq
      have := List.any_eq_false.mp hanyfalse q hq
      simpa using this
    refine ⟨p, d, rfl, ?_, hp, hdmem, hmiss,
      depErrorMessage_names_dependent _ _, depErrorMessage_names_missing _ _⟩
    simp [checkDependenciesExist, hfind]

/-- A one-feature collection whose only feature depends on a name that
does not exist. -/
def missingDepSample : List Polyfill :=
  [{ absolutePath := "/p/a", relativePath := "a", name := "a",
     config := { dependencies := some ["ghost"] } }]

/-- Witness for `checkDependenciesExist_missing` on `missingDepSample`. -/
theorem checkDependenciesExist_missing_witness :
    (∃ p ∈ missingDepSample, ∃ d ∈ p.dependencies,
      ∀ q ∈ missingDepSample, d ≠ q.name) ∧
    (∃ p₀ d₀,
      firstMissingDep missingDepSample = some (p₀, d₀) ∧
      checkDependenciesExist missingDepSample =
        .error (depErrorMessage p₀.name d₀) ∧
      p₀ ∈ missingDepSample ∧ d₀ ∈ p₀.dependencies ∧
      (∀ q ∈ missingDepSample, d₀ ≠ q.name) ∧
      p₀.name.data <:+: (depErrorMessage p₀.name d₀).data ∧
      d₀.data <:+: (depErrorMessage p₀.name d₀).data) :=
  ⟨by decide, checkDependenciesExist_missing missingDepSample (by decide)⟩

/-- C7: the license check fails exactly when a license is present and it
either does not resolve on the SPDX registry or is neither OSI-approved
nor one of the allow-listed exceptions `CC0-1.0` and `WTFPL`; on failure
the error names the offending license, and a feature with no license
field always passes. -/
theorem checkLicense_spec (spdx : String → Option SpdxLicense)
    (cfg : TomlConfig) :
    (cfg.license = none → checkLicense spdx cfg = .ok ()) ∧
    ((∃ e, checkLicense spdx cfg = .error e) ↔
      ∃ lic, cfg.license = some lic ∧
        (spdx lic = none ∨
          ∃ info, spdx lic = some info ∧ info.osiApproved = false ∧
            lic ≠ "CC0-1.0" ∧ lic ≠ "WTFPL")) ∧
    (∀ e lic, checkLicense spdx cfg = .error e → cfg.license = some lic →
      lic.data <:+: e.data) := by
  rcases hlic : cfg.license with _ | lic
  · refine ⟨fun _ => by simp [checkLicense, hlic], ?_, ?_⟩
    · simp [checkLicense, hlic]
    · intro e lic h hsome
      simp [checkLicense, hlic] at h
  · rcases hspdx : spdx lic with _ | info
    · refine ⟨by simp [hlic], ?_, ?_⟩
      · constructor
        · intro _
          exact ⟨lic, rfl, Or.inl hspdx⟩
        · intro _
          exact ⟨notOnSpdxListError lic, by simp [checkLicense, hlic, hspdx]⟩
      · intro e lic' h hsome
        obtain rfl : lic = lic' := by simpa [hlic] using hsome
        have he : e = notOnSpdxListError lic := by
          simpa [checkLicense, hlic, hspdx] using h.symm
        subst he
        have hform : notOnSpdxListError lic =
            "The license " ++ lic ++
              " is not on the SPDX list of licenses ( https://spdx.org/licenses/ )." := by
          simp [notOnSpdxListError, String.append_assoc]
        rw [hform]
        exact data_infix_append _ _ _
    · by_cases hcond : lic ≠ "CC0-1.0" ∧ lic ≠ "WTFPL" ∧ info.osiApproved = false
      · refine ⟨by simp [hlic], ?_, ?_⟩
        · constructor
          · intro _
            exact ⟨lic, rfl, Or.inr ⟨info, hspdx, hcond.2.2, hcond.1, hcond.2.1⟩⟩
          · intro _
            exact ⟨notOsiApprovedError lic info.name,
              by simp [checkLicense, hlic, hspdx, hcond]⟩
        · intro e lic' h hsome
          obtain rfl : lic = lic' := by simpa [hlic] using hsome
          have he : e = notOsiApprovedError lic info.name := by
            simpa [checkLicense, hlic, hspdx, hcond] using h.symm
          subst he
          have hform : notOsiApprovedError lic info.name =
              "The license " ++ lic ++
                (" (" ++ info.name ++ ") is not OSI approved.") := by
            simp [notOsiApprovedError, String.append_assoc]
          rw [hform]
          exact data_infix_append _ _ _
      · have hok : checkLicense spdx cfg = .ok () := by
          simp [checkLicense, hlic, hspdx, hcond]
        refine ⟨by simp [hlic], ?_, ?_⟩
        · constructor
          · rintro ⟨e, he⟩
            rw [hok] at he
            exact absurd he (by simp)
          · rintro ⟨lic', hlic', hbad⟩
            obtain rfl : lic = lic' := by simpa [hlic] using hlic'
            rcases hbad with hnone | ⟨info', hinfo', hosi, hc1, hc2⟩
            · rw [hspdx] at hnone
              exact absurd hnone (by simp)
            · rw [hspdx] at hinfo'
              obtain rfl : info = info' := by simpa using hinfo'
              exact (hcond ⟨hc1, hc2, hosi⟩).elim
        · intro e lic' h _
          rw [hok] at h
          exact absurd h (by simp)

/-- The SPDX registry fixture: `MIT` is OSI-approved, `Beerware` resolves
but is not, other identifiers do not resolve. -/
def spdxSample (lic : String) : Option SpdxLicense :=
  if lic = "MIT" then some { name := "MIT License", osiApproved := true }
  else if lic = "Beerware" then some { name := "Beerware License", osiApproved := false }
  else none

/-- Witness for `checkLicense_spec` on an unresolvable license. -/
theorem checkLicense_spec_witness :
    checkLicense spdxSample { license := some "NOPE" } =
      .error (notOnSpdxListError "NOPE") ∧
    ("NOPE" : String).data <:+: (notOnSpdxListError "NOPE").data :=
  ⟨rfl, (checkLicense_spec spdxSample { license := some "NOPE" }).2.2
    (notOnSpdxListError "NOPE") "NOPE" rfl rfl⟩

/-- C6 counterexample: an internal-namespaced feature (`_foo`) whose
config has the misspelled `licence` key but no `browsers` table fails
config loading with the browser-coverage check's `TypeError`, which does
not name the feature. -/
theorem loadConfigChecks_licence_unnamed_error :
    loadConfigChecks "_foo" { licence := some "x" } ["chrome"] false none
        (fun _ => true) id =
      .error (browsersUndefinedError "chrome") ∧
    ¬ (("_foo" : String).data <:+: (browsersUndefinedError "chrome").data) :=
  ⟨by decide, by decide⟩

/-- C6 amended: a config with the misspelled `licence` key always fails
config loading, even with no `license` key; the error is the
licence-spelling error naming the feature whenever the preceding
internal-browser check passes (in particular for every non-internal
feature), and otherwise it is that check's own failure — which does not
name the feature when an internal feature's config lacks its browsers
table entirely. -/
theorem loadConfigChecks_licence_spec (relative : String) (cfg : TomlConfig)
    (supportedBrowsers : List String) (hasTestsFile : Bool)
    (detectFile : Option String) (parses : String → Bool)
    (uglifyDetect : String → String) (h : cfg.licence.isSome = true) :
    (∃ e, loadConfigChecks relative cfg supportedBrowsers hasTestsFile
        detectFile parses uglifyDetect = .error e) ∧
    ((if strStartsWith relative "_" then
        internalBrowserCheck (canonicalName relative) supportedBrowsers cfg.browsers
      else .ok ()) = .ok () →
      loadConfigChecks relative cfg supportedBrowsers hasTestsFile
          detectFile parses uglifyDetect =
        .error (licenceSpellingError (canonicalName relative)) ∧
      (canonicalName relative).data
        <:+: (licenceSpellingError (canonicalName relative)).data) ∧
    (∀ e, loadConfigChecks relative cfg supportedBrowsers hasTestsFile
        detectFile parses uglifyDetect = .error e →
      e = licenceSpellingError (canonicalName relative) ∨
      internalBrowserCheck (canonicalName relative) supportedBrowsers
          cfg.browsers = .error e) := by
  have hname : (canonicalName relative).data
      <:+: (licenceSpellingError (canonicalName relative)).data := by
    unfold licenceSpellingError
    exact data_infix_append_right _ _
  have key : loadConfigChecks relative cfg supportedBrowsers hasTestsFile
      detectFile parses uglifyDetect =
      (if strStartsWith relative "_" then
        internalBrowserCheck (canonicalName relative) supportedBrowsers
          cfg.browsers
      else .ok ()).bind
        (fun _ => .error (licenceSpellingError (canonicalName relative))) := by
    unfold loadConfigChecks
    simp [h]
  by_cases hint : strStartsWith relative "_"
  · rw [if_pos hint] at key ⊢
    rcases hcheck : internalBrowserCheck (canonicalName relative)
        supportedBrowsers cfg.browsers with e | u
    · rw [hcheck] at key
      have hload : loadConfigChecks relative cfg supportedBrowsers hasTestsFile
          detectFile parses uglifyDetect = .error e := key
      refine ⟨⟨e, hload⟩, ?_, ?_⟩
      · intro hok
        exact absurd hok (by simp)
      · intro e' he'
        right
        rw [hload] at he'
        rw [Except.error.inj he']
    · rw [hcheck] at key
      have hload : loadConfigChecks relative cfg supportedBrowsers hasTestsFile
          detectFile parses uglifyDetect =
          .error (licenceSpellingError (canonicalName relative)) := key
      refine ⟨⟨_, hload⟩, fun _ => ⟨hload, hname⟩, ?_⟩
      intro e' he'
      left
      rw [hload] at he'
      exact (Except.error.inj he').symm
  · rw [if_neg hint] at key ⊢
    have hload : loadConfigChecks relative cfg supportedBrowsers hasTestsFile
        detectFile parses uglifyDetect =
        .error (licenceSpellingError (canonicalName relative)) := key
    refine ⟨⟨_, hload⟩, fun _ => ⟨hload, hname⟩, ?_⟩
    intro e' he'
    left
    rw [hload] at he'
    exact (Except.error.inj he').symm

/-- Witness for `loadConfigChecks_licence_spec`: a non-internal feature
whose config misspells the license key and has no `license` key. -/
theorem loadConfigChecks_licence_spec_witness :
    (({ licence := some "MIT" } : TomlConfig).licence.isSome = true) ∧
    (∃ e, loadConfigChecks "fetch" { licence := some "MIT" } [] false none
        (fun _ => true) id = .error e) :=
  ⟨rfl, (loadConfigChecks_licence_spec "fetch" { licence := some "MIT" } []
    false none (fun _ => true) id rfl).1⟩

/-! ### Alias-index lemmas -/

theorem lookup_cons_pair (a : String) (b : List String)
    (rest : List (String × List String)) (k : String) :
    List.lookup k ((a, b) :: rest) =
      if k = a then some b else List.lookup k rest := by
  by_cases h : k = a
  · simp [List.lookup, h]
  · have hb : (k == a) = false := by simp [h]
    simp [List.lookup, hb, h]

theorem lookup_insertAlias (m : List (String × List String))
    (al n k : String) :
    List.lookup k (insertAlias m al n) =
      if k = al then some ((List.lookup al m).getD [] ++ [n])
      else List.lookup k m := by
  induction m with
  | nil =>
      by_cases h : k = al <;>
        simp [insertAlias, lookup_cons_pair, h]
  | cons hd rest ih =>
      obtain ⟨a, b⟩ := hd
      by_cases hal : a = al
      · subst hal
        by_cases hk : k = a <;> simp [insertAlias, lookup_cons_pair, hk]
      · have haln : ¬ al = a := fun hh => hal hh.symm
        by_cases hk : k = a
        · have hkal : ¬ k = al := by rw [hk]; exact hal
          simp [insertAlias, lookup_cons_pair, hal, hk, hkal]
        · by_cases hkal : k = al
          · subst hkal
            simp [insertAlias, lookup_cons_pair, hal, hk, ih,
              fun hh => hal hh]
          · simp [insertAlias, lookup_cons_pair, hal, hk, hkal, ih, haln]

theorem lookup_foldl_insertAlias (als : List String) (n : String)
    (m : List (String × List String)) (k : String) :
    List.lookup k (als.foldl (fun m' al => insertAlias m' al n) m) =
      if k ∈ als then
        some ((List.lookup k m).getD [] ++ List.replicate (als.count k) n)
      else List.lookup k m := by
  induction als generalizing m with
  | nil => simp
  | cons a rest ih =>
      simp only [List.foldl_cons]
      rw [ih, lookup_insertAlias]
      by_cases hk : k = a
      · subst hk
        by_cases hmem : k ∈ rest
        · simp [hmem, List.count_cons_self, List.replicate_succ,
            List.append_assoc]
        · have hcount : rest.count k = 0 := List.count_eq_zero.mpr hmem
          simp [hmem, List.count_cons_self, hcount, List.replicate_succ]
      · have hmemiff : (k ∈ a :: rest) = (k ∈ rest) := by
          simp [List.mem_cons, hk]
        have hcount : (a :: rest).count k = rest.count k := by
          simp [List.count_cons, hk]
        simp [hk, hmemiff, hcount]

theorem filter_map_const_replicate (l : List String) (k n : String) :
    ((l.filter (fun a => a = k)).map (fun _ => n)) =
      List.replicate (l.count k) n := by
  induction l with
  | nil => simp
  | cons a rest ih =>
      by_cases h : a = k
      · subst h
        simp [List.filter_cons, List.count_cons, ih, List.replicate_succ]
      · simp [List.filter_cons, List.count_cons, h, ih, Ne.symm h]

theorem specAliasList_cons (p : Polyfill) (ps : List Polyfill) (k : String) :
    specAliasList (p :: ps) k =
      List.replicate (p.aliases.count k) p.name ++ specAliasList ps k := by
  simp only [specAliasList, List.flatMap_cons]
  rw [filter_map_const_replicate]

theorem lookup_buildAliases_aux (ps : List Polyfill)
    (m : List (String × List String)) (k : String) :
    List.lookup k (ps.foldl
      (fun acc p => p.aliases.foldl
        (fun m' al => insertAlias m' al p.name) acc) m) =
      if specAliasList ps k = [] then List.lookup k m
      else some ((List.lookup k m).getD [] ++ specAliasList ps k) := by
  induction ps generalizing m with
  | nil => simp [specAliasList]
  | cons p rest ih =>
      simp only [List.foldl_cons]
      rw [ih, lookup_foldl_insertAlias]
      rw [specAliasList_cons]
      by_cases hmem : k ∈ p.aliases
      · have hpos : 0 < p.aliases.count k := List.count_pos_iff.mpr hmem
        have hrep : List.replicate (p.aliases.count k) p.name ≠ [] := by
          intro h
          rw [List.replicate_eq_nil_iff] at h
          omega
        by_cases hrest : specAliasList rest k = []
        · simp [hmem, hrest, hrep]
        · have hne : List.replicate (p.aliases.count k) p.name ++
              specAliasList rest k ≠ [] := by
            simp [hrest]
          simp only [hrest, if_neg hne, if_neg hrest, hmem, if_true, if_pos]
          simp [List.append_assoc]
      · have hcount : p.aliases.count k = 0 := List.count_eq_zero.mpr hmem
        simp [hmem, hcount]

/-- A feature that explicitly redeclares the implicit alias `all`. -/
def redeclaredAllSample : Polyfill :=
  { absolutePath := "/p/f", relativePath := "f", name := "f",
    config := { aliases := some ["all"] } }

/-- C5 counterexample: a feature that explicitly redeclares the implicit
alias `all` appears under `all` twice, not exactly once. -/
theorem buildAliases_duplicate_all :
    List.lookup "all" (buildAliases [redeclaredAllSample]) =
      some ["f", "f"] ∧
    (["f", "f"].count "f" ≠ 1) := by
  decide

theorem specAliasList_all (ps : List Polyfill)
    (h : ∀ p ∈ ps, "all" ∉ p.config.aliases.getD []) :
    specAliasList ps "all" = ps.map Polyfill.name := by
  induction ps with
  | nil => simp [specAliasList]
  | cons p rest ih =>
      have hp : "all" ∉ p.config.aliases.getD [] :=
        h p (List.mem_cons_self p rest)
      have hrest : ∀ q ∈ rest, "all" ∉ q.config.aliases.getD [] :=
        fun q hq => h q (List.mem_cons_of_mem p hq)
      have hcount : p.aliases.count "all" = 1 := by
        simp only [Polyfill.aliases, List.count_cons_self,
          List.count_eq_zero.mpr hp]
      rw [specAliasList_cons, hcount, ih hrest, List.replicate_one,
        List.singleton_append, List.map_cons]

/-- C5 amended: the alias index maps each alias to the list obtained by,
for every feature in order, for every occurrence of that alias in
`["all"] ++ declared aliases` in order, appending the feature's name
(absent aliases are simply not keys); consequently `all` maps to every
feature's name exactly once provided no feature redeclares `all`
explicitly (otherwise once per occurrence). -/
theorem buildAliases_spec (ps : List Polyfill) :
    (∀ k, List.lookup k (buildAliases ps) =
      if specAliasList ps k = [] then none else some (specAliasList ps k)) ∧
    ((∀ p ∈ ps, "all" ∉ p.config.aliases.getD []) →
      List.lookup "all" (buildAliases ps) =
        if ps = [] then none else some (ps.map Polyfill.name)) := by
  have hmain : ∀ k, List.lookup k (buildAliases ps) =
      if specAliasList ps k = [] then none else some (specAliasList ps k) := by
    intro k
    unfold buildAliases
    rw [lookup_buildAliases_aux]
    by_cases h : specAliasList ps k = [] <;> simp [h]
  refine ⟨hmain, ?_⟩
  intro hnone
  rw [hmain "all", specAliasList_all ps hnone]
  rcases ps with _ | ⟨p, rest⟩ <;> simp

/-- Two features: `foo` with declared alias `bar`, and `baz`. -/
def twoFeatureSample : List Polyfill :=
  [{ absolutePath := "/p/foo", relativePath := "foo", name := "foo",
     config := { aliases := some ["bar"] } },
   { absolutePath := "/p/baz", relativePath := "baz", name := "baz",
     config := {} }]

/-- Witness for `buildAliases_spec` on `twoFeatureSample`. -/
theorem buildAliases_spec_witness :
    (∀ p ∈ twoFeatureSample, "all" ∉ p.config.aliases.getD []) ∧
    List.lookup "all" (buildAliases twoFeatureSample) = some ["foo", "baz"] :=
  ⟨by decide, by
    have h := (buildAliases_spec twoFeatureSample).2 (by decide)
    simpa [twoFeatureSample] using h⟩

/-! ### Cycle-detection lemmas -/

/-- A node with an incoming edge from a still-remaining node can never be
the one removed by a Kahn step; a nonempty set of nodes each of which has
a predecessor inside the set therefore keeps `kahnStuck` at `true`. -/
theorem kahnStuck_of_trapped (fuel : Nat) :
    ∀ (ns : List String) (es : List (String × String)) (C : List String),
      C ≠ [] → (∀ c ∈ C, c ∈ ns) →
      (∀ c ∈ C, ∃ c' ∈ C, (c', c) ∈ es) →
      kahnStuck fuel ns es = true := by
  induction fuel with
  | zero =>
      intro ns es C hne hsub _
      obtain ⟨c, hc⟩ := List.exists_mem_of_ne_nil C hne
      have hns : ns ≠ [] := by
        intro h
        rw [h] at hsub
        exact absurd (hsub c hc) (List.not_mem_nil c)
      rcases ns with _ | ⟨x, xs⟩
      · exact absurd rfl hns
      · simp [kahnStuck]
  | succ fuel ih =>
      intro ns es C hne hsub hpred
      obtain ⟨c, hc⟩ := List.exists_mem_of_ne_nil C hne
      have hns : ns.isEmpty = false := by
        rcases ns with _ | _
        · exact absurd (hsub c hc) (List.not_mem_nil c)
        · rfl
      rw [kahnStuck, hns]
      simp only [Bool.false_eq_true, if_false]
      rcases hfind : ns.find? (fun n => !es.any (fun e => e.2 = n)) with _ | n
      · rfl
      · have hnoin : ∀ e ∈ es, e.2 ≠ n := by
          intro e he
          have hp := List.find?_some hfind
          simp only [Bool.not_eq_true', List.any_eq_false] at hp
          have := hp e he
          simpa using this
        have hnotC : n ∉ C := by
          intro hnC
          obtain ⟨c', _, hedge⟩ := hpred n hnC
          exact hnoin (c', n) hedge rfl
        refine ih (ns.erase n) (es.filter (fun e => e.1 ≠ n)) C hne ?_ ?_
        · intro x hx
          have hxn : x ≠ n := by
            intro h
            rw [h] at hx
            exact hnotC hx
          exact (List.mem_erase_of_ne hxn).mpr (hsub x hx)
        · intro x hx
          obtain ⟨c', hc', hedge⟩ := hpred x hx
          refine ⟨c', hc', List.mem_filter.mpr ⟨hedge, ?_⟩⟩
          simp only [decide_eq_true_eq]
          intro h
          exact hnotC (h ▸ hc')

/-- Every element of a chain's tail has a predecessor within the chain. -/
theorem chain_mem_pred {r : String → String → Prop} :
    ∀ (x : String) (ys : List String), List.Chain r x ys →
      ∀ c ∈ ys, ∃ c' ∈ x :: ys, r c' c := by
  intro x ys
  induction ys generalizing x with
  | nil =>
      intro _ c hc
      exact absurd hc (List.not_mem_nil c)
  | cons y ys' ih =>
      intro hchain c hc
      rw [List.chain_cons] at hchain
      rcases List.mem_cons.mp hc with rfl | hc'
      · exact ⟨x, List.mem_cons_self x _, hchain.1⟩
      · obtain ⟨c', hc'', hr⟩ := ih y hchain.2 c hc'
        exact ⟨c', List.mem_cons_of_mem x hc'', hr⟩

/-- A closed edge path `a → … → a` forces `hasCycle` to `true`. -/
theorem hasCycle_of_chain (es : List (String × String)) (a : String)
    (l : List String)
    (h : List.Chain (fun x y => (x, y) ∈ es) a (l ++ [a])) :
    hasCycle es = true := by
  have hpred : ∀ c ∈ a :: l, ∃ c' ∈ a :: l, (c', c) ∈ es := by
    intro c hc
    have hcmem : c ∈ l ++ [a] := by
      rcases List.mem_cons.mp hc with rfl | hcl
      · exact List.mem_append_right l (List.mem_singleton_self c)
      · exact List.mem_append_left [a] hcl
    obtain ⟨c', hc', hr⟩ := chain_mem_pred a (l ++ [a]) h c hcmem
    refine ⟨c', ?_, hr⟩
    rcases List.mem_cons.mp hc' with rfl | hc''
    · exact List.mem_cons_self c' l
    · rcases List.mem_append.mp hc'' with hcl | hca
      · exact List.mem_cons_of_mem a hcl
      · rw [List.mem_singleton.mp hca]
        exact List.mem_cons_self a l
  have hsub : ∀ c ∈ a :: l, c ∈ edgeNodes es := by
    intro c hc
    obtain ⟨c', _, hedge⟩ := hpred c hc
    unfold edgeNodes
    rw [List.mem_dedup]
    exact List.mem_flatMap.mpr ⟨(c', c), hedge, by simp⟩
  exact kahnStuck_of_trapped _ _ _ (a :: l) (List.cons_ne_nil a l) hsub hpred

/-- C4: when the dependency edges contain a directed cycle, the build
stage halts at the circular-dependency check with its diagnostic and
performs no write at all: no destination directory, no alias index, no
metadata, raw or minified source. -/
theorem runBuildStage_cycle (polyfills : List Polyfill) (a : String)
    (l : List String)
    (h : List.Chain (fun x y => (x, y) ∈ dependencyEdges polyfills) a
      (l ++ [a])) :
    runBuildStage polyfills = ([], some cycleErrorMessage) := by
  have hc : hasCycle (dependencyEdges polyfills) = true :=
    hasCycle_of_chain _ a l h
  simp [runBuildStage, checkForCircularDependencies, hc]

/-- Two features depending on each other: edges (B, A) and (A, B). -/
def circularSample : List Polyfill :=
  [{ absolutePath := "/p/A", relativePath := "A", name := "A",
     config := { dependencies := some ["B"] } },
   { absolutePath := "/p/B", relativePath := "B", name := "B",
     config := { dependencies := some ["A"] } }]

/-- Witness for `runBuildStage_cycle` on `circularSample`. -/
theorem runBuildStage_cycle_witness :
    List.Chain (fun x y => (x, y) ∈ dependencyEdges circularSample) "A"
      (["B"] ++ ["A"]) ∧
    runBuildStage circularSample = ([], some cycleErrorMessage) :=
  have hchain : List.Chain
      (fun x y => (x, y) ∈ dependencyEdges circularSample) "A"
      (["B"] ++ ["A"]) :=
    List.Chain.cons (by decide) (List.Chain.cons (by decide) List.Chain.nil)
  ⟨hchain, runBuildStage_cycle circularSample "A" ["B"] hchain⟩

/-- C9: a discovered directory without a config file is dropped by the
candidate filter before any loading stage runs: it is not a candidate,
and every stage event of the construction trace belongs to a directory
that does have a config file — so no config, license, source or
update-config stage is ever attempted for it and no missing-config error
can arise from it. -/
theorem candidateFeatures_excludes (dirs : List FeatureDir) (d : FeatureDir)
    (hd : d ∈ dirs) (hno : d.hasConfigFile = false) :
    d ∉ candidateFeatures dirs ∧
    ∀ e ∈ constructionTrace dirs, e.1 ≠ d ∧ e.1.hasConfigFile = true := by
  have hcand : ∀ d' ∈ candidateFeatures dirs, d'.hasConfigFile = true := by
    intro d' hd'
    have := (List.mem_filter.mp hd').2
    simpa using this
  constructor
  · intro hmem
    rw [hcand d hmem] at hno
    simp at hno
  · intro e he
    obtain ⟨d', hd', hein⟩ := List.mem_flatMap.mp he
    have hd'cfg : d'.hasConfigFile = true := hcand d' hd'
    have he1 : e.1 = d' := by
      simp only [List.mem_cons, List.not_mem_nil, or_false] at hein
      rcases hein with rfl | rfl | rfl | rfl <;> rfl
    refine ⟨?_, by rw [he1]; exact hd'cfg⟩
    intro hedd
    rw [he1] at hedd
    rw [hedd, hno] at hd'cfg
    simp at hd'cfg

/-- A discovered directory with no `config.toml`. -/
def dirNoConfig : FeatureDir :=
  { absolute := "/r/x", relative := "x", hasConfigFile := false }

/-- A discovered directory with a `config.toml`. -/
def dirWithConfig : FeatureDir :=
  { absolute := "/r/y", relative := "y", hasConfigFile := true }

/-- Witness for `candidateFeatures_excludes`. -/
theorem candidateFeatures_excludes_witness :
    (dirNoConfig ∈ [dirNoConfig, dirWithConfig] ∧
      dirNoConfig.hasConfigFile = false) ∧
    (dirNoConfig ∉ candidateFeatures [dirNoConfig, dirWithConfig] ∧
      ∀ e ∈ constructionTrace [dirNoConfig, dirWithConfig],
        e.1 ≠ dirNoConfig ∧ e.1.hasConfigFile = true) :=
  ⟨⟨by decide, rfl⟩,
    candidateFeatures_excludes [dirNoConfig, dirWithConfig] dirNoConfig
      (by decide) rfl⟩

/-! ### Discovery lemmas -/

theorem flatten_def (t : DirTree) :
    flattenPolyfillDirectories t = flattenForest t.children := by
  cases t
  rw [flattenPolyfillDirectories]
  rfl

theorem mem_flattenForest (cs : List DirTree) (p : List String) :
    p ∈ flattenForest cs ↔
      ∃ c ∈ cs, strStartsWith c.dirName "__" = false ∧
        (p = [c.dirName] ∨
          ∃ q ∈ flattenPolyfillDirectories c, p = c.dirName :: q) := by
  induction cs with
  | nil => simp [flattenForest]
  | cons c rest ih =>
      have hunf : flattenForest (c :: rest) =
          (if strStartsWith c.dirName "__" then []
           else (flattenPolyfillDirectories c).map (fun p => c.dirName :: p) ++
                [[c.dirName]]) ++ flattenForest rest := by
        rw [flattenForest]
      rw [hunf]
      by_cases h__ : strStartsWith c.dirName "__"
      · rw [if_pos h__, List.nil_append, ih]
        constructor
        · rintro ⟨c', hc', hns, hcase⟩
          exact ⟨c', List.mem_cons_of_mem c hc', hns, hcase⟩
        · rintro ⟨c', hc', hns, hcase⟩
          rcases List.mem_cons.mp hc' with rfl | hc''
          · rw [h__] at hns
            exact absurd hns (by simp)
          · exact ⟨c', hc'', hns, hcase⟩
      · rw [if_neg h__]
        have h__f : strStartsWith c.dirName "__" = false :=
          Bool.not_eq_true _ ▸ eq_false_of_ne_true h__
        constructor
        · intro hmem
          rcases List.mem_append.mp hmem with hleft | hright
          · rcases List.mem_append.mp hleft with hmap | hsing
            · obtain ⟨q, hq, hpq⟩ := List.mem_map.mp hmap
              exact ⟨c, List.mem_cons_self c rest, h__f,
                Or.inr ⟨q, hq, hpq.symm⟩⟩
            · rw [List.mem_singleton.mp hsing]
              exact ⟨c, List.mem_cons_self c rest, h__f, Or.inl rfl⟩
          · obtain ⟨c', hc', hns, hcase⟩ := ih.mp hright
            exact ⟨c', List.mem_cons_of_mem c hc', hns, hcase⟩
        · rintro ⟨c', hc', hns, hcase⟩
          rcases List.mem_cons.mp hc' with rfl | hc''
          · refine List.mem_append.mpr (Or.inl ?_)
            rcases hcase with heq | ⟨q, hq, heq⟩
            · exact List.mem_append.mpr (Or.inr (heq ▸ List.mem_singleton_self _))
            · exact List.mem_append.mpr
                (Or.inl (heq ▸ List.mem_map.mpr ⟨q, hq, rfl⟩))
          · exact List.mem_append.mpr
              (Or.inr (ih.mpr ⟨c', hc'', hns, hcase⟩))

theorem mem_flattenPolyfillDirectories (p : List String) :
    ∀ t : DirTree, p ∈ flattenPolyfillDirectories t ↔
      (p ≠ [] ∧ IsDirChain t p ∧
        ∀ s ∈ p, strStartsWith s "__" = false) := by
  induction p with
  | nil =>
      intro t
      rw [flatten_def, mem_flattenForest]
      simp
  | cons n rest ih =>
      intro t
      rw [flatten_def, mem_flattenForest]
      constructor
      · rintro ⟨c, hc, h__, hcase⟩
        rcases hcase with heq | ⟨q, hq, heq⟩
        · injection heq with h1 h2
          subst h1
          subst h2
          refine ⟨List.cons_ne_nil _ _, ?_, ?_⟩
          · exact ⟨c, hc, rfl, trivial⟩
          · intro s hs
            rw [List.mem_singleton.mp hs]
            exact h__
        · injection heq with h1 h2
          subst h1
          subst h2
          have hrest := (ih c).mp hq
          refine ⟨List.cons_ne_nil _ _, ?_, ?_⟩
          · exact ⟨c, hc, rfl, hrest.2.1⟩
          · intro s hs
            rcases List.mem_cons.mp hs with rfl | hs'
            · exact h__
            · exact hrest.2.2 s hs'
      · rintro ⟨_, hchain, hall⟩
        obtain ⟨c, hc, hname, hsub⟩ :
            ∃ c ∈ t.children, c.dirName = n ∧ IsDirChain c rest := hchain
        have h__ : strStartsWith c.dirName "__" = false := by
          rw [hname]
          exact hall n (List.mem_cons_self n rest)
        refine ⟨c, hc, h__, ?_⟩
        rcases rest with _ | ⟨r, rs⟩
        · left
          rw [hname]
        · right
          refine ⟨r :: rs, (ih c).mpr ⟨List.cons_ne_nil _ _, hsub, ?_⟩, by rw [hname]⟩
          intro s hs
          exact hall s (List.mem_cons_of_mem n hs)

/-- C10: discovery returns exactly the chains of nested subdirectories
none of whose names starts with the two-character prefix `__` — so a
subtree rooted at a `__`-prefixed directory (such as the `__dist`
destination inside the source root) is never discovered, while a
directory whose name starts with a single underscore is discovered and
its feature is non-public. -/
theorem flattenPolyfillDirectories_spec (t : DirTree) (p : List String) :
    (p ∈ flattenPolyfillDirectories t ↔
      p ≠ [] ∧ IsDirChain t p ∧
        ∀ s ∈ p, strStartsWith s "__" = false) ∧
    (∀ rest, ("__dist" :: rest) ∉ flattenPolyfillDirectories t) ∧
    (∀ s, strStartsWith s "_" = true → isPublicName s = false) := by
  refine ⟨mem_flattenPolyfillDirectories p t, ?_, ?_⟩
  · intro rest hmem
    have h := (mem_flattenPolyfillDirectories _ t).mp hmem
    have hdist := h.2.2 "__dist" (List.mem_cons_self _ _)
    exact absurd hdist (by decide)
  · intro s hs
    simp [isPublicName, hs]

/-- A source root with an internal feature directory `_x` and the `__dist`
destination directory. -/
def sampleTree : DirTree :=
  .node "polyfills" [.node "_x" [], .node "__dist" []]

/-- Witness for `flattenPolyfillDirectories_spec` on `sampleTree`. -/
theorem flattenPolyfillDirectories_spec_witness :
    (["_x"] ∈ flattenPolyfillDirectories sampleTree) ∧
    (["__dist"] ∉ flattenPolyfillDirectories sampleTree) ∧
    isPublicName "_x" = false := by
  refine ⟨?_, (flattenPolyfillDirectories_spec sampleTree ["__dist"]).2.1 [],
    (flattenPolyfillDirectories_spec sampleTree ["__dist"]).2.2 "_x" (by decide)⟩
  refine (flattenPolyfillDirectories_spec sampleTree ["_x"]).1.mpr
    ⟨by decide, ?_, by decide⟩
  exact ⟨.node "_x" [], List.mem_cons_self _ _, rfl, trivial⟩

end BuildSources
